import Mathlib

/-
Verification of the fslock crate (advisory cross-platform file locking).

The relevant Rust modules are shallowly embedded:
  * src/unix.rs       : native Unix primitives (open, write, flock-based
                        lock/try_lock/unlock, truncate, close);
  * src/windows.rs    : native Windows primitives (CreateFileW-based open,
                        LockFileEx-based lock/try_lock, UnlockFileEx);
  * src/unix_fileid.rs: the intra-process arbitration table HELD_LOCKS
                        (a HashMap from (st_dev, st_ino) to a condvar) with
                        take_lock / try_take_lock / release_lock, and the
                        FileId type (Exclusive raw id or NonExclusive);
  * src/lib.rs        : the LockFile handle state machine (open, lock,
                        try_lock, owns_lock, unlock, Drop);
  * src/fmt.rs        : the buffered PID-stamping Writer and its Adapter.

Native syscalls (flock, write, LockFileEx, fstat, ...) are external to the
crate; their outcomes are supplied by environment oracles, and the embedding
reproduces exactly how the Rust code branches on those outcomes.
-/

deriving instance DecidableEq for Except

namespace Fslock

/-! Errno constants with the numeric values the libc crate exposes on Linux,
which is the platform the Unix sources target in this build. Note that on
Linux `EAGAIN` and `EWOULDBLOCK` are the same code, 11. -/

def EINTR : Int := 4
def EAGAIN : Int := 11
def EWOULDBLOCK : Int := 11
def EACCES : Int := 13

/-- Windows error code ERROR_LOCK_VIOLATION, as imported from
winapi::shared::winerror in src/windows.rs. -/
def ERROR_LOCK_VIOLATION : Int := 33

/-- Outcome of a fallible library call as observed by the caller: a normal
return value, a propagated OS error carrying the raw error code, or a Rust
panic with its message (the function aborts instead of returning). -/
inductive Outcome (α : Type) where
  | ok : α → Outcome α
  | err : Int → Outcome α
  | panics : String → Outcome α
deriving DecidableEq, Repr

/-! ### Native Unix primitives (src/unix.rs) -/

/-- Environment-supplied result of one `libc::flock` call: success
(return value at least 0) or failure (return value -1) with the errno
value observed right after the call. -/
inductive FlockRes where
  | success
  | failure (errno : Int)
deriving DecidableEq, Repr

/-- Embedding of unix.rs `try_lock` (lines 331-343): flock with
LOCK_EX | LOCK_NB; on success returns Ok(true); on failure returns
Ok(false) when errno is EWOULDBLOCK or EINTR, and otherwise propagates
the errno as an error. -/
def unixTryLock : FlockRes → Outcome Bool
  | .success => .ok true
  | .failure e =>
      if e = EWOULDBLOCK ∨ e = EINTR then .ok false else .err e

/-- Embedding of unix.rs `lock` (lines 321-328): flock with LOCK_EX; any
failure propagates the errno. -/
def unixLock : FlockRes → Outcome Unit
  | .success => .ok ()
  | .failure e => .err e

/-- Embedding of unix.rs `unlock` (lines 346-353): flock with LOCK_UN; any
failure propagates the errno. -/
def unixUnlock : FlockRes → Outcome Unit
  | .success => .ok ()
  | .failure e => .err e

/-- The set of Unix error codes that the specification designates as
"would block" codes for try_lock: EWOULDBLOCK, EAGAIN or EACCES. This
definition follows the spec sentence, for comparison with the code. -/
def specUnixWouldBlock (e : Int) : Prop :=
  e = EWOULDBLOCK ∨ e = EAGAIN ∨ e = EACCES

instance (e : Int) : Decidable (specUnixWouldBlock e) := by
  unfold specUnixWouldBlock; infer_instance

/-- Environment for one windows.rs `try_lock` call. The code first builds
an OVERLAPPED structure, which can fail while creating its event; then it
calls LockFileEx; if LockFileEx returns TRUE it waits on the event, and a
failed wait yields an error; if LockFileEx returns FALSE the code reads
GetLastError. -/
inductive WinTryLockEnv where
  | eventErr (code : Int)
  | lockOk (waitErr : Option Int)
  | lockFailed (lastError : Int)
deriving DecidableEq, Repr

/-- Embedding of windows.rs `try_lock` (lines 410-442): LockFileEx with
LOCKFILE_EXCLUSIVE_LOCK | LOCKFILE_FAIL_IMMEDIATELY; GetLastError equal to
ERROR_LOCK_VIOLATION becomes Ok(false); any other failure code is
propagated as an error. -/
def windowsTryLock : WinTryLockEnv → Outcome Bool
  | .eventErr c => .err c
  | .lockOk none => .ok true
  | .lockOk (some c) => .err c
  | .lockFailed c =>
      if c = ERROR_LOCK_VIOLATION then .ok false else .err c

/-! ### The Unix write loop (src/unix.rs lines 280-292)

The Rust code is

  while bytes.len() > 0 {
      let written = unsafe { libc::write(fd, ptr, bytes.len()) };
      if written < 0 && errno() != libc::EAGAIN {
          return Err(Error::last_os_error());
      }
      bytes = &bytes[written as usize ..];
  }
  Ok(())

Each iteration consumes one environment-supplied syscall result. The cast
`written as usize` is the two's-complement reinterpretation of the signed
return value on a 64-bit target, and the Rust slice expression
`&bytes[a ..]` panics when `a` exceeds the slice length. -/

/-- Result of one `libc::write` syscall: the raw return value (a byte
count, or -1 on failure) and the errno value observed after the call. -/
structure WriteCall where
  ret : Int
  errno : Int
deriving DecidableEq, Repr

/-- Outcome of running the unix.rs write loop: normal return, error
return, a Rust panic from the slice-indexing expression, or still looping
when the supplied list of syscall results runs out. -/
inductive WriteOutcome where
  | ok
  | err (e : Int)
  | panics
  | running
deriving DecidableEq, Repr

/-- Reinterpretation of an i64 (in fact isize on a 64-bit target) as a
usize, as performed by the Rust cast `written as usize`. -/
def usizeCast (n : Int) : Nat := (n.emod (2 ^ 64)).toNat

/-- Embedding of unix.rs `write` (lines 280-292), one loop iteration per
supplied syscall result. -/
def unixWrite : List Nat → List WriteCall → WriteOutcome
  | [], _ => .ok
  | _ :: _, [] => .running
  | bs, c :: rest =>
      if c.ret < 0 ∧ c.errno ≠ EAGAIN then
        .err c.errno
      else
        let advance := usizeCast c.ret
        if bs.length < advance then .panics
        else unixWrite (bs.drop advance) rest

/-! ### The arbitration table and FileId (src/unix_fileid.rs)

HELD_LOCKS is a process-wide HashMap from RawFileId = (st_dev, st_ino) to
an Arc of a condition variable. We embed it as an association list whose
keys are the raw ids; HashMap keys are unique, which is an invariant of
the embedding. The condvar value carries no data relevant to the claims;
in its place each entry records the index of the handle that inserted it,
a ghost field used to state ownership (the Rust map does not store it, and
no operation of the embedding branches on it). -/

/-- RawFileId: the (st_dev, st_ino) pair from fstat. -/
abbrev RawId := Nat × Nat

/-- The HELD_LOCKS table: entries are (raw id, ghost owner handle index). -/
abbrev Table := List (RawId × Nat)

/-- Whether HELD_LOCKS contains an entry for this raw id. -/
def tableHas (t : Table) (raw : RawId) : Bool :=
  t.any fun e => e.1 = raw

/-- HashMap insertion of an absent key (every call site checks absence
first, via Entry::Vacant). -/
def tableInsert (t : Table) (raw : RawId) (owner : Nat) : Table :=
  (raw, owner) :: t

/-- HashMap removal by key, as in `held.remove(&id)`. Keys are unique, so
filtering out every entry with this key removes exactly the one entry when
it is present. -/
def tableRemove (t : Table) (raw : RawId) : Table :=
  t.filter fun e => ¬ e.1 = raw

/-- FileId (src/unix_fileid.rs lines 61-65): either an Exclusive raw
(device, inode) identity, or NonExclusive for OS-dependent behaviour. -/
inductive FileId where
  | exclusive (raw : RawId)
  | nonExclusive
deriving DecidableEq, Repr

namespace FileId

/-- Whether FileId::take_lock would block: only an Exclusive id whose raw
id is already present in HELD_LOCKS blocks (unix_fileid.rs lines 26-42
and 74-79); NonExclusive take_lock is a no-op. -/
def takeBlocks : FileId → Table → Bool
  | .nonExclusive, _ => false
  | .exclusive raw, t => tableHas t raw

/-- Effect of a completed FileId::take_lock by handle `o`: insert the raw
id (precondition: it was absent, otherwise the call blocks). -/
def takeLock : FileId → Table → Nat → Table
  | .nonExclusive, t, _ => t
  | .exclusive raw, t, o => tableInsert t raw o

/-- FileId::try_take_lock by handle `o` (unix_fileid.rs lines 44-52 and
80-85): NonExclusive always succeeds without touching the table; Exclusive
inserts and succeeds when the raw id is absent, otherwise fails. -/
def tryTakeLock : FileId → Table → Nat → Bool × Table
  | .nonExclusive, t, _ => (true, t)
  | .exclusive raw, t, o =>
      if tableHas t raw then (false, t) else (true, tableInsert t raw o)

/-- FileId::release_lock (unix_fileid.rs lines 54-59 and 86-91):
NonExclusive is a no-op; Exclusive removes the raw id entry (and notifies
one waiter, which has no effect on the embedded state). -/
def releaseLock : FileId → Table → Table
  | .nonExclusive, t => t
  | .exclusive raw, t => tableRemove t raw

end FileId

/-! ### The LockFile handle state machine (src/lib.rs) -/

/-- A LockFile handle: the `locked` flag and `id` field are the Rust
struct's fields. `osHeld` is a ghost flag tracking whether the OS-level
lock on this handle's file descriptor is held (set when a native lock call
on this descriptor succeeds, cleared when a native unlock on it succeeds);
`closed` is a ghost flag set by Drop (a dropped handle is inaccessible in
Rust, so no operation applies to it). -/
structure Handle where
  locked : Bool
  id : FileId
  osHeld : Bool
  closed : Bool
deriving DecidableEq, Repr

/-- The process state: all handles ever opened (indexed by position) and
the HELD_LOCKS table. -/
structure St where
  handles : List Handle
  table : Table
deriving DecidableEq, Repr

/-- Environment-supplied result of a native call returning Result of unit:
none is Ok, some e is an OS error with code e. -/
abbrev SysRes := Option Int

namespace St

/-- The initial process state: no handles, empty HELD_LOCKS table. -/
def init : St := ⟨[], []⟩

/-- LockFile::open / open_excl via open_internal (lib.rs lines 414-422):
the native open succeeds, the id is resolved per the exclusivity mode, and
a new handle is appended with locked = false. A failing native open or
fstat returns an error without creating a handle, leaving the state
unchanged. -/
def openHandle (s : St) (id : FileId) : St :=
  { s with
    handles := s.handles ++ [⟨false, id, false, false⟩] }

/-- LockFile::lock (lib.rs lines 462-474) on handle `i`, with `res` the
environment result of the native sys::lock call. Returns none when the
call never completes: the handle index is invalid or already dropped
(impossible in Rust), or take_lock blocks forever. The Rust code panics if
already locked; otherwise it runs id.take_lock(), then sys::lock, and on a
native error releases the id before propagating. -/
def lock (s : St) (i : Nat) (res : SysRes) : Option (Outcome Unit × St) :=
  match s.handles[i]? with
  | none => none
  | some h =>
    if h.closed then none
    else if h.locked then
      some (.panics "Cannot lock if already owning a lock", s)
    else if h.id.takeBlocks s.table then none
    else
      let t1 := h.id.takeLock s.table i
      match res with
      | some e => some (.err e, { s with table := h.id.releaseLock t1 })
      | none =>
          some (.ok (),
            ⟨s.handles.set i { h with locked := true, osHeld := true }, t1⟩)

/-- LockFile::try_lock (lib.rs lines 516-531) on handle `i`, with `res`
the environment result of the native sys::try_lock call (consulted only
when the id try_take succeeds). The middle component of the returned
triple is a ghost flag recording whether the native OS try_lock call was
issued at all. -/
def tryLock (s : St) (i : Nat) (res : Outcome Bool) :
    Option (Outcome Bool × Bool × St) :=
  match s.handles[i]? with
  | none => none
  | some h =>
    if h.closed then none
    else if h.locked then
      some (.panics "Cannot lock if already owning a lock", false, s)
    else
      match h.id.tryTakeLock s.table i with
      | (true, t1) =>
          match res with
          | .ok true =>
              some (.ok true, true,
                ⟨s.handles.set i { h with locked := true, osHeld := true },
                 t1⟩)
          | .ok false =>
              some (.ok false, true, { s with table := h.id.releaseLock t1 })
          | .err e =>
              some (.err e, true, { s with table := h.id.releaseLock t1 })
          | .panics m => some (.panics m, true, s)
      | (false, _) => some (.ok false, false, s)

/-- LockFile::owns_lock (lib.rs lines 557-559): a pure query of the
`locked` flag, no state change. -/
def ownsLock (s : St) (i : Nat) : Option Bool :=
  (s.handles[i]?).map Handle.locked

/-- LockFile::unlock (lib.rs lines 597-605) on handle `i`, with `res` the
environment result of the native sys::unlock call. The Rust code panics if
not locked; otherwise it sets locked = false, then runs sys::unlock with
the `?` operator (so a native error returns immediately, before
id.release_lock()), then releases the id. -/
def unlock (s : St) (i : Nat) (res : SysRes) : Option (Outcome Unit × St) :=
  match s.handles[i]? with
  | none => none
  | some h =>
    if h.closed then none
    else if ¬ h.locked then
      some (.panics "Attempted to unlock already locked lockfile", s)
    else
      match res with
      | some e =>
          some (.err e,
            { s with handles := s.handles.set i { h with locked := false } })
      | none =>
          some (.ok (),
            ⟨s.handles.set i { h with locked := false, osHeld := false },
             h.id.releaseLock s.table⟩)

/-- Drop for LockFile (lib.rs lines 608-617) on handle `i`, with `res`
the environment result of the best-effort native sys::unlock call (issued
only when still locked, its error discarded). If locked, the id is
released and the flag cleared; the native descriptor is always closed. -/
def dropHandle (s : St) (i : Nat) (res : SysRes) : Option St :=
  match s.handles[i]? with
  | none => none
  | some h =>
    if h.closed then none
    else if h.locked then
      let osh := match res with | none => false | some _ => h.osHeld
      some ⟨s.handles.set i
              { h with locked := false, osHeld := osh, closed := true },
            h.id.releaseLock s.table⟩
    else
      some { s with handles := s.handles.set i { h with closed := true } }

end St

/-- One completed operation of the LockFile API, for any handle and any
environment-chosen native results. -/
inductive Step : St → St → Prop where
  | openStep (s : St) (id : FileId) : Step s (s.openHandle id)
  | lockStep (s : St) (i : Nat) (res : SysRes) (out : Outcome Unit)
      (s2 : St) : s.lock i res = some (out, s2) → Step s s2
  | tryLockStep (s : St) (i : Nat) (res : Outcome Bool) (out : Outcome Bool)
      (c : Bool) (s2 : St) : s.tryLock i res = some (out, c, s2) → Step s s2
  | unlockStep (s : St) (i : Nat) (res : SysRes) (out : Outcome Unit)
      (s2 : St) : s.unlock i res = some (out, s2) → Step s s2
  | dropStep (s : St) (i : Nat) (res : SysRes) (s2 : St) :
      s.dropHandle i res = some s2 → Step s s2

/-- States reachable from the initial process state by completed
operations. -/
def Reachable (s : St) : Prop :=
  Relation.ReflTransGen Step St.init s

/-- Handle `i` holds the arbitration entry for file id `id`: trivial for
NonExclusive ids (arbitration is bypassed), and for Exclusive ids the
HELD_LOCKS entry for the raw id is the one this handle inserted. -/
def arbHeld (t : Table) (i : Nat) : FileId → Prop
  | .nonExclusive => True
  | .exclusive raw => (raw, i) ∈ t

/-- The system invariant: HELD_LOCKS keys are unique (it is a HashMap),
and every handle whose `locked` flag is true holds both the arbitration
entry for its file id and the OS-level lock on its descriptor. -/
def Inv (s : St) : Prop :=
  (s.table.map Prod.fst).Nodup ∧
    ∀ i h, s.handles[i]? = some h → h.locked = true →
      arbHeld s.table i h.id ∧ h.osHeld = true

/-! ### Table lemmas -/

theorem tableHas_true {t : Table} {raw : RawId} :
    tableHas t raw = true ↔ ∃ e ∈ t, e.1 = raw := by
  simp [tableHas]

theorem tableHas_false {t : Table} {raw : RawId} :
    tableHas t raw = false ↔ ∀ o, (raw, o) ∉ t := by
  rw [← Bool.not_eq_true, tableHas_true]
  constructor
  · intro h o hm
    exact h ⟨(raw, o), hm, rfl⟩
  · rintro h ⟨⟨r, o⟩, hm, he⟩
    cases he
    exact h o hm

theorem mem_tableRemove {t : Table} {raw r : RawId} {o : Nat} :
    (r, o) ∈ tableRemove t raw ↔ (r, o) ∈ t ∧ r ≠ raw := by
  simp [tableRemove, List.mem_filter]

theorem tableRemove_eq_self {t : Table} {raw : RawId}
    (h : tableHas t raw = false) : tableRemove t raw = t := by
  apply List.filter_eq_self.mpr
  intro e he
  obtain ⟨r, o⟩ := e
  simp only [decide_eq_true_eq]
  intro heq
  cases heq
  exact tableHas_false.mp h o he

theorem nodup_keys_tableRemove {t : Table} {raw : RawId}
    (h : (t.map Prod.fst).Nodup) :
    ((tableRemove t raw).map Prod.fst).Nodup :=
  ((List.filter_sublist t).map Prod.fst).nodup h

theorem tableHas_false_key_not_mem {t : Table} {raw : RawId}
    (h : tableHas t raw = false) : raw ∉ t.map Prod.fst := by
  intro hm
  obtain ⟨⟨r, o⟩, he, hfst⟩ := List.mem_map.mp hm
  cases hfst
  exact tableHas_false.mp h o he

theorem key_unique {t : Table} (hn : (t.map Prod.fst).Nodup) {raw : RawId}
    {o1 o2 : Nat} (h1 : (raw, o1) ∈ t) (h2 : (raw, o2) ∈ t) : o1 = o2 := by
  induction t with
  | nil => cases h1
  | cons e tl ih =>
    rw [List.map_cons, List.nodup_cons] at hn
    obtain ⟨hne, hntl⟩ := hn
    rcases List.mem_cons.mp h1 with he1 | ht1
    · rcases List.mem_cons.mp h2 with he2 | ht2
      · rw [← he2] at he1
        exact (Prod.mk.injEq _ _ _ _ ▸ he1).2
      · cases he1
        exact absurd (List.mem_map.mpr ⟨(raw, o2), ht2, rfl⟩) hne
    · rcases List.mem_cons.mp h2 with he2 | ht2
      · cases he2
        exact absurd (List.mem_map.mpr ⟨(raw, o1), ht1, rfl⟩) hne
      · exact ih hntl ht1 ht2

/-- A successful FileId::try_take_lock has exactly the effect of a
non-blocking take_lock. -/
theorem tryTakeLock_success {id : FileId} {t t1 : Table} {i : Nat}
    (h : id.tryTakeLock t i = (true, t1)) :
    id.takeBlocks t = false ∧ t1 = id.takeLock t i := by
  cases id with
  | nonExclusive =>
    simp [FileId.tryTakeLock] at h
    simp [FileId.takeBlocks, FileId.takeLock, h]
  | exclusive raw =>
    by_cases hb : tableHas t raw
    · simp [FileId.tryTakeLock, hb] at h
    · simp [FileId.tryTakeLock, hb] at h
      simp [FileId.takeBlocks, FileId.takeLock, hb, h]

/-- Releasing right after a non-blocking take restores the table: the
error path of LockFile::lock leaves no orphaned arbitration state. -/
theorem releaseLock_takeLock {id : FileId} {t : Table} {i : Nat}
    (h : id.takeBlocks t = false) :
    id.releaseLock (id.takeLock t i) = t := by
  cases id with
  | nonExclusive => rfl
  | exclusive raw =>
    simp only [FileId.takeBlocks] at h
    simp only [FileId.takeLock, FileId.releaseLock, tableInsert, tableRemove,
      List.filter_cons]
    simp only [decide_eq_true_eq]
    rw [if_neg (by simp)]
    exact tableRemove_eq_self h

/-! ### Invariant preservation, one lemma per operation -/

theorem inv_openHandle {s : St} (hinv : Inv s) (id : FileId) :
    Inv (s.openHandle id) := by
  obtain ⟨hnod, hh⟩ := hinv
  refine ⟨hnod, ?_⟩
  intro i h hget hlock
  by_cases hi : i < s.handles.length
  · rw [St.openHandle] at hget
    simp only at hget
    rw [List.getElem?_append_left hi] at hget
    exact hh i h hget hlock
  · rcases Nat.lt_or_ge i (s.handles.length + 1) with hi1 | hi1
    · have hieq : i = s.handles.length := by omega
      subst hieq
      rw [St.openHandle] at hget
      simp only at hget
      rw [List.getElem?_concat_length] at hget
      cases hget
      cases hlock
    · rw [St.openHandle] at hget
      simp only at hget
      rw [List.getElem?_eq_none (by simp; omega)] at hget
      cases hget

/-- Core lemma for the acquiring operations: starting from an unlocked
handle whose take does not block, setting it to locked with the OS lock
ghost and inserting its arbitration entry preserves the invariant. -/
theorem inv_acquire {s : St} {i : Nat} {h : Handle}
    (hinv : Inv s) (hget : s.handles[i]? = some h)
    (hnb : h.id.takeBlocks s.table = false) :
    Inv ⟨s.handles.set i { h with locked := true, osHeld := true },
         h.id.takeLock s.table i⟩ := by
  obtain ⟨hnod, hh⟩ := hinv
  constructor
  · cases hid : h.id with
    | nonExclusive => simpa [FileId.takeLock] using hnod
    | exclusive raw =>
      rw [hid] at hnb
      simp only [FileId.takeBlocks] at hnb
      simp only [FileId.takeLock, tableInsert, List.map_cons, List.nodup_cons]
      exact ⟨tableHas_false_key_not_mem hnb, hnod⟩
  · intro j g hgetj hlockj
    by_cases hji : j = i
    · subst hji
      have hlt : j < s.handles.length := (List.getElem?_eq_some_iff.mp hget).1
      rw [List.getElem?_set_self hlt] at hgetj
      cases hgetj
      refine ⟨?_, rfl⟩
      cases hid : h.id with
      | nonExclusive => exact trivial
      | exclusive raw =>
        simp only [hid, FileId.takeLock, arbHeld, tableInsert]
        exact List.mem_cons_self _ _
    · rw [List.getElem?_set_ne (fun a => hji a.symm)] at hgetj
      obtain ⟨harb, hos⟩ := hh j g hgetj hlockj
      refine ⟨?_, hos⟩
      cases hidg : g.id with
      | nonExclusive => exact trivial
      | exclusive rawg =>
        rw [hidg] at harb
        simp only [arbHeld] at harb ⊢
        cases h.id with
        | nonExclusive => exact harb
        | exclusive raw =>
          simp only [FileId.takeLock, tableInsert]
          exact List.mem_cons_of_mem _ harb

/-- Core lemma for the releasing operations: a locked handle replaced by
any unlocked handle value, with its arbitration entry released, preserves
the invariant. -/
theorem inv_release {s : St} {i : Nat} {h h2 : Handle}
    (hinv : Inv s) (hget : s.handles[i]? = some h)
    (hlock : h.locked = true) (h2unlocked : h2.locked = false) :
    Inv ⟨s.handles.set i h2, h.id.releaseLock s.table⟩ := by
  obtain ⟨hnod, hh⟩ := hinv
  constructor
  · cases h.id with
    | nonExclusive => exact hnod
    | exclusive raw => exact nodup_keys_tableRemove hnod
  · intro j g hgetj hlockj
    by_cases hji : j = i
    · subst hji
      have hlt : j < s.handles.length := (List.getElem?_eq_some_iff.mp hget).1
      rw [List.getElem?_set_self hlt] at hgetj
      cases hgetj
      rw [h2unlocked] at hlockj
      cases hlockj
    · rw [List.getElem?_set_ne (fun a => hji a.symm)] at hgetj
      obtain ⟨harb, hos⟩ := hh j g hgetj hlockj
      refine ⟨?_, hos⟩
      cases hidg : g.id with
      | nonExclusive => exact trivial
      | exclusive rawg =>
        rw [hidg] at harb
        simp only [arbHeld] at harb ⊢
        cases hidh : h.id with
        | nonExclusive => exact harb
        | exclusive raw =>
          simp only [FileId.releaseLock]
          rw [mem_tableRemove]
          refine ⟨harb, ?_⟩
          intro hrr
          subst hrr
          obtain ⟨harbi, _⟩ := hh i h hget hlock
          rw [hidh] at harbi
          exact hji (key_unique hnod harb harbi)

/-- Core lemma for state changes that only replace a handle by an
unlocked handle value and leave the table unchanged. -/
theorem inv_set_unlocked {s : St} {i : Nat} {h2 : Handle}
    (hinv : Inv s) (h2unlocked : h2.locked = false) :
    Inv ⟨s.handles.set i h2, s.table⟩ := by
  obtain ⟨hnod, hh⟩ := hinv
  refine ⟨hnod, ?_⟩
  intro j g hgetj hlockj
  by_cases hji : j = i
  · subst hji
    by_cases hlt : j < s.handles.length
    · rw [List.getElem?_set_self hlt] at hgetj
      cases hgetj
      rw [h2unlocked] at hlockj
      cases hlockj
    · rw [List.getElem?_eq_none (by simp only [List.length_set]; omega)]
        at hgetj
      cases hgetj
  · rw [List.getElem?_set_ne (fun a => hji a.symm)] at hgetj
    exact hh j g hgetj hlockj

theorem inv_lock {s s2 : St} {i : Nat} {res : SysRes} {out : Outcome Unit}
    (hinv : Inv s) (hstep : s.lock i res = some (out, s2)) : Inv s2 := by
  unfold St.lock at hstep
  split at hstep
  · exact Option.noConfusion hstep
  · rename_i h hget
    split at hstep
    · exact Option.noConfusion hstep
    · split at hstep
      · simp only [Option.some.injEq, Prod.mk.injEq] at hstep
        obtain ⟨-, hs2⟩ := hstep
        subst hs2
        exact hinv
      · split at hstep
        · exact Option.noConfusion hstep
        · rename_i hnb
          split at hstep
          · simp only [Option.some.injEq, Prod.mk.injEq] at hstep
            obtain ⟨-, hs2⟩ := hstep
            subst hs2
            have hb : h.id.takeBlocks s.table = false := by simpa using hnb
            rw [releaseLock_takeLock hb]
            exact hinv
          · simp only [Option.some.injEq, Prod.mk.injEq] at hstep
            obtain ⟨-, hs2⟩ := hstep
            subst hs2
            exact inv_acquire hinv hget (by simpa using hnb)

theorem inv_tryLock {s s2 : St} {i : Nat} {res : Outcome Bool}
    {out : Outcome Bool} {c : Bool}
    (hinv : Inv s) (hstep : s.tryLock i res = some (out, c, s2)) : Inv s2 := by
  unfold St.tryLock at hstep
  split at hstep
  · exact Option.noConfusion hstep
  · rename_i h hget
    split at hstep
    · exact Option.noConfusion hstep
    · split at hstep
      · simp only [Option.some.injEq, Prod.mk.injEq] at hstep
        obtain ⟨-, -, hs2⟩ := hstep
        subst hs2
        exact hinv
      · split at hstep
        · rename_i t1 htt
          obtain ⟨hnb, ht1⟩ := tryTakeLock_success htt
          split at hstep <;>
            simp only [Option.some.injEq, Prod.mk.injEq] at hstep
          · obtain ⟨-, -, hs2⟩ := hstep
            subst hs2
            rw [ht1]
            exact inv_acquire hinv hget hnb
          · obtain ⟨-, -, hs2⟩ := hstep
            subst hs2
            rw [ht1, releaseLock_takeLock hnb]
            exact hinv
          · obtain ⟨-, -, hs2⟩ := hstep
            subst hs2
            rw [ht1, releaseLock_takeLock hnb]
            exact hinv
          · obtain ⟨-, -, hs2⟩ := hstep
            subst hs2
            exact hinv
        · simp only [Option.some.injEq, Prod.mk.injEq] at hstep
          obtain ⟨-, -, hs2⟩ := hstep
          subst hs2
          exact hinv

theorem inv_unlock {s s2 : St} {i : Nat} {res : SysRes} {out : Outcome Unit}
    (hinv : Inv s) (hstep : s.unlock i res = some (out, s2)) : Inv s2 := by
  unfold St.unlock at hstep
  split at hstep
  · exact Option.noConfusion hstep
  · rename_i h hget
    split at hstep
    · exact Option.noConfusion hstep
    · split at hstep
      · simp only [Option.some.injEq, Prod.mk.injEq] at hstep
        obtain ⟨-, hs2⟩ := hstep
        subst hs2
        exact hinv
      · rename_i hl
        have hlock : h.locked = true := by simpa using hl
        split at hstep <;>
          simp only [Option.some.injEq, Prod.mk.injEq] at hstep
        · obtain ⟨-, hs2⟩ := hstep
          subst hs2
          exact inv_set_unlocked hinv rfl
        · obtain ⟨-, hs2⟩ := hstep
          subst hs2
          exact inv_release hinv hget hlock rfl

theorem inv_dropHandle {s s2 : St} {i : Nat} {res : SysRes}
    (hinv : Inv s) (hstep : s.dropHandle i res = some s2) : Inv s2 := by
  unfold St.dropHandle at hstep
  split at hstep
  · exact Option.noConfusion hstep
  · rename_i h hget
    split at hstep
    · exact Option.noConfusion hstep
    · split at hstep
      · rename_i hl
        simp only [Option.some.injEq] at hstep
        subst hstep
        exact inv_release hinv hget (by simpa using hl) rfl
      · rename_i hl
        simp only [Option.some.injEq] at hstep
        subst hstep
        apply inv_set_unlocked hinv
        show h.locked = false
        simpa using hl

theorem inv_step {s s2 : St} (hinv : Inv s) (hstep : Step s s2) : Inv s2 := by
  cases hstep with
  | openStep id => exact inv_openHandle hinv id
  | lockStep i res out s2 heq => exact inv_lock hinv heq
  | tryLockStep i res out c s2 heq => exact inv_tryLock hinv heq
  | unlockStep i res out s2 heq => exact inv_unlock hinv heq
  | dropStep i res s2 heq => exact inv_dropHandle hinv heq

theorem inv_init : Inv St.init := by
  constructor
  · simp [St.init]
  · intro i h hget
    simp [St.init] at hget

/-- C1: for every LockFile handle and every sequence of
open/lock/try_lock/unlock/drop operations (with arbitrary
environment-chosen native-call results, error paths included), whenever a
handle's `locked` flag is true, the intra-process arbitration table entry
for the handle's FileId is held by that handle and the OS-level lock on
its file descriptor is held; the HELD_LOCKS keys moreover stay unique. -/
theorem locked_implies_both_held (s : St) (hreach : Reachable s) : Inv s := by
  induction hreach with
  | refl => exact inv_init
  | tail _ hstep ih => exact inv_step ih hstep

/-- Witness for C1: a concrete reachable state (open an exclusive handle,
then lock it with a succeeding native call) satisfies the invariant. -/
theorem locked_implies_both_held_witness :
    Inv ⟨[⟨true, FileId.exclusive (1, 2), true, false⟩], [((1, 2), 0)]⟩ := by
  have h1 : Step St.init (St.init.openHandle (FileId.exclusive (1, 2))) :=
    Step.openStep _ _
  have h2 : Step (St.init.openHandle (FileId.exclusive (1, 2)))
      ⟨[⟨true, FileId.exclusive (1, 2), true, false⟩], [((1, 2), 0)]⟩ :=
    Step.lockStep _ 0 none (.ok ()) _ (by decide)
  exact locked_implies_both_held _
    ((Relation.ReflTransGen.single h1).tail h2)

/-! ### Claim C2: unlock sequencing -/

/-- C2 counterexample: a handle that is locked and holds its arbitration
entry calls unlock() and the native unlock fails with error 5; unlock
returns that error, but the arbitration entry ((5,7) owned by handle 0) is
still in the table afterwards, contrary to the claim that after unlock()
returns, with Ok or with an error, the entry is no longer held. -/
theorem unlock_err_entry_still_held :
    St.unlock ⟨[⟨true, FileId.exclusive (5, 7), true, false⟩], [((5, 7), 0)]⟩
        0 (some 5) =
      some (.err 5,
        ⟨[⟨false, FileId.exclusive (5, 7), true, false⟩], [((5, 7), 0)]⟩) ∧
    ((5, 7), 0) ∈ [((5, 7), 0)] := by
  decide

/-- C2 amended: for a handle in the Locked state, unlock() with a
succeeding native unlock performs the arbitration release and transitions
to Unlocked; with a failing native unlock it returns the native error and
still transitions to Unlocked (the locked flag is cleared first), but the
arbitration release is skipped, so the table — the handle's entry
included — is left unchanged. -/
theorem unlock_sequencing {s : St} {i : Nat} {h : Handle}
    (hget : s.handles[i]? = some h) (hcl : h.closed = false)
    (hlock : h.locked = true) :
    s.unlock i none =
      some (.ok (),
        ⟨s.handles.set i { h with locked := false, osHeld := false },
         h.id.releaseLock s.table⟩) ∧
    ∀ e, s.unlock i (some e) =
      some (.err e, ⟨s.handles.set i { h with locked := false }, s.table⟩) := by
  constructor
  · unfold St.unlock
    rw [hget]
    simp [hcl, hlock]
  · intro e
    unfold St.unlock
    rw [hget]
    simp [hcl, hlock]

/-- Witness for C2 amended at a concrete locked handle. -/
theorem unlock_sequencing_witness :
    St.unlock ⟨[⟨true, FileId.exclusive (5, 7), true, false⟩], [((5, 7), 0)]⟩
        0 none =
      some (.ok (),
        ⟨[⟨false, FileId.exclusive (5, 7), false, false⟩], []⟩) := by
  have h := unlock_sequencing
    (s := ⟨[⟨true, FileId.exclusive (5, 7), true, false⟩], [((5, 7), 0)]⟩)
    (i := 0) (h := ⟨true, FileId.exclusive (5, 7), true, false⟩)
    rfl rfl rfl
  calc St.unlock _ 0 none = _ := h.1
  _ = _ := by decide

/-! ### Claim C4: lock sequencing and error unwinding -/

/-- C4: for a handle in the Unlocked state whose arbitration take can
complete, lock() with a failing native lock returns that error with the
state exactly as before (the arbitration entry was released, the locked
flag stays false, no orphaned arbitration state); with a succeeding native
lock the handle transitions to Locked holding its arbitration entry. -/
theorem lock_sequencing {s : St} {i : Nat} {h : Handle}
    (hget : s.handles[i]? = some h) (hcl : h.closed = false)
    (hunlocked : h.locked = false)
    (hnb : h.id.takeBlocks s.table = false) :
    (∀ e, s.lock i (some e) = some (.err e, s)) ∧
    s.lock i none =
      some (.ok (),
        ⟨s.handles.set i { h with locked := true, osHeld := true },
         h.id.takeLock s.table i⟩) ∧
    arbHeld (h.id.takeLock s.table i) i h.id := by
  refine ⟨?_, ?_, ?_⟩
  · intro e
    unfold St.lock
    rw [hget]
    simp [hcl, hunlocked, hnb, releaseLock_takeLock hnb]
  · unfold St.lock
    rw [hget]
    simp [hcl, hunlocked, hnb]
  · cases h.id with
    | nonExclusive => exact trivial
    | exclusive raw => exact List.mem_cons_self _ _

/-- Witness for C4 at a concrete unlocked handle: both the error path and
the success path of lock(). -/
theorem lock_sequencing_witness :
    (St.lock ⟨[⟨false, FileId.exclusive (3, 4), false, false⟩], []⟩ 0
        (some 13) =
      some (.err 13, ⟨[⟨false, FileId.exclusive (3, 4), false, false⟩], []⟩)) ∧
    (St.lock ⟨[⟨false, FileId.exclusive (3, 4), false, false⟩], []⟩ 0 none =
      some (.ok (),
        ⟨[⟨true, FileId.exclusive (3, 4), true, false⟩], [((3, 4), 0)]⟩)) := by
  have h := lock_sequencing
    (s := ⟨[⟨false, FileId.exclusive (3, 4), false, false⟩], []⟩)
    (i := 0) (h := ⟨false, FileId.exclusive (3, 4), false, false⟩)
    rfl rfl rfl rfl
  exact ⟨h.1 13, h.2.1⟩

/-! ### Claim C5: try_lock sequencing -/

/-- C5: for a handle in the Unlocked state, try_lock() with a failing
arbitration try_take returns Ok(false) with the state unchanged and
without issuing the native OS try_lock call (the middle ghost flag is
false); with a succeeding try_take, a native Ok(true) transitions to
Locked keeping the entry, while native Ok(false) and native errors leave
the state exactly as before: the arbitration entry is released before the
result is returned. -/
theorem tryLock_sequencing {s : St} {i : Nat} {h : Handle}
    (hget : s.handles[i]? = some h) (hcl : h.closed = false)
    (hunlocked : h.locked = false) :
    ((h.id.tryTakeLock s.table i).1 = false →
      ∀ res, s.tryLock i res = some (.ok false, false, s)) ∧
    ∀ t1, h.id.tryTakeLock s.table i = (true, t1) →
      s.tryLock i (.ok true) =
        some (.ok true, true,
          ⟨s.handles.set i { h with locked := true, osHeld := true }, t1⟩) ∧
      s.tryLock i (.ok false) = some (.ok false, true, s) ∧
      ∀ e, s.tryLock i (.err e) = some (.err e, true, s) := by
  constructor
  · intro hfail res
    simp only [St.tryLock, hget, hcl, hunlocked, Bool.false_eq_true,
      if_false]
    cases htk2 : h.id.tryTakeLock s.table i with
    | mk b t =>
      rw [htk2] at hfail
      simp only at hfail
      subst hfail
      rfl
  · intro t1 htk
    obtain ⟨hnb, ht1⟩ := tryTakeLock_success htk
    refine ⟨?_, ?_, ?_⟩
    · simp only [St.tryLock, hget, hcl, hunlocked, Bool.false_eq_true,
        if_false, htk]
    · simp only [St.tryLock, hget, hcl, hunlocked, Bool.false_eq_true,
        if_false, htk]
      rw [ht1, releaseLock_takeLock hnb]
    · intro e
      simp only [St.tryLock, hget, hcl, hunlocked, Bool.false_eq_true,
        if_false, htk]
      rw [ht1, releaseLock_takeLock hnb]

/-- Witness for C5: a handle whose file id entry is already held by
another handle gets Ok(false) without an OS call; after the other entry is
absent, a native Ok(true) locks, and a native Ok(false) restores the
state. -/
theorem tryLock_sequencing_witness :
    (St.tryLock ⟨[⟨false, FileId.exclusive (3, 4), false, false⟩],
        [((3, 4), 9)]⟩ 0 (.ok true) =
      some (.ok false, false,
        ⟨[⟨false, FileId.exclusive (3, 4), false, false⟩], [((3, 4), 9)]⟩)) ∧
    (St.tryLock ⟨[⟨false, FileId.exclusive (3, 4), false, false⟩], []⟩ 0
        (.ok true) =
      some (.ok true, true,
        ⟨[⟨true, FileId.exclusive (3, 4), true, false⟩], [((3, 4), 0)]⟩)) ∧
    (St.tryLock ⟨[⟨false, FileId.exclusive (3, 4), false, false⟩], []⟩ 0
        (.ok false) =
      some (.ok false, true,
        ⟨[⟨false, FileId.exclusive (3, 4), false, false⟩], []⟩)) := by
  have h1 := tryLock_sequencing
    (s := ⟨[⟨false, FileId.exclusive (3, 4), false, false⟩], [((3, 4), 9)]⟩)
    (i := 0) (h := ⟨false, FileId.exclusive (3, 4), false, false⟩)
    rfl rfl rfl
  have h2 := tryLock_sequencing
    (s := ⟨[⟨false, FileId.exclusive (3, 4), false, false⟩], []⟩)
    (i := 0) (h := ⟨false, FileId.exclusive (3, 4), false, false⟩)
    rfl rfl rfl
  have h2t := h2.2 [((3, 4), 0)] (by decide)
  exact ⟨h1.1 (by decide) (.ok true), h2t.1, h2t.2.1⟩

/-! ### Claim C6: owns_lock across open → lock → unlock -/

/-- C6: for a freshly opened handle (either exclusivity mode), owns_lock
is false after open; after a lock() whose native call succeeds it is true;
after a subsequent unlock() whose native call succeeds it is false again.
owns_lock itself is a pure query: in the embedding it is a function of the
state returning a Bool and performing no state change. -/
theorem ownsLock_lifecycle (id : FileId) :
    (St.init.openHandle id).ownsLock 0 = some false ∧
    (((St.init.openHandle id).lock 0 none).map fun p => p.2.ownsLock 0) =
      some (some true) ∧
    (((St.init.openHandle id).lock 0 none).bind fun p =>
        (p.2.unlock 0 none).map fun q => q.2.ownsLock 0) =
      some (some false) := by
  cases id <;> exact ⟨rfl, rfl, rfl⟩

/-! ### Claim C7: contract violations panic -/

/-- C7: lock() and try_lock() on a handle whose locked flag is already
true, and unlock() on a handle whose locked flag is false, panic (abort)
rather than returning any Ok or Err value, leaving the state unchanged. -/
theorem contract_violation_panics {s : St} {i : Nat} {h : Handle}
    (hget : s.handles[i]? = some h) (hcl : h.closed = false) :
    (h.locked = true →
      (∀ res, s.lock i res =
        some (.panics "Cannot lock if already owning a lock", s)) ∧
      (∀ res, s.tryLock i res =
        some (.panics "Cannot lock if already owning a lock", false, s))) ∧
    (h.locked = false →
      ∀ res, s.unlock i res =
        some (.panics "Attempted to unlock already locked lockfile", s)) := by
  constructor
  · intro hlock
    constructor
    · intro res
      simp only [St.lock, hget, hcl, Bool.false_eq_true, if_false, hlock,
        if_true]
    · intro res
      simp only [St.tryLock, hget, hcl, Bool.false_eq_true, if_false, hlock,
        if_true]
  · intro hunlocked res
    simp only [St.unlock, hget, hcl, Bool.false_eq_true, if_false,
      hunlocked, not_false_eq_true, if_true]

/-- Witness for C7: a locked handle panics on lock() and try_lock(); an
unlocked handle panics on unlock(). -/
theorem contract_violation_panics_witness :
    (St.lock ⟨[⟨true, FileId.nonExclusive, true, false⟩], []⟩ 0 none =
      some (.panics "Cannot lock if already owning a lock",
        ⟨[⟨true, FileId.nonExclusive, true, false⟩], []⟩)) ∧
    (St.tryLock ⟨[⟨true, FileId.nonExclusive, true, false⟩], []⟩ 0
        (.ok true) =
      some (.panics "Cannot lock if already owning a lock", false,
        ⟨[⟨true, FileId.nonExclusive, true, false⟩], []⟩)) ∧
    (St.unlock ⟨[⟨false, FileId.nonExclusive, false, false⟩], []⟩ 0 none =
      some (.panics "Attempted to unlock already locked lockfile",
        ⟨[⟨false, FileId.nonExclusive, false, false⟩], []⟩)) := by
  have h1 := contract_violation_panics
    (s := ⟨[⟨true, FileId.nonExclusive, true, false⟩], []⟩)
    (i := 0) (h := ⟨true, FileId.nonExclusive, true, false⟩) rfl rfl
  have h2 := contract_violation_panics
    (s := ⟨[⟨false, FileId.nonExclusive, false, false⟩], []⟩)
    (i := 0) (h := ⟨false, FileId.nonExclusive, false, false⟩) rfl rfl
  exact ⟨(h1.1 rfl).1 none, (h1.1 rfl).2 (.ok true), h2.2 rfl none⟩

/-! ### Claim C3: the would-block classification of try_lock -/

/-- C3 counterexample: EACCES is one of the codes the claim designates as
a Unix would-block code, yet the Unix native try_lock propagates a flock
failure with errno EACCES as an error (code 13) instead of returning
Ok(false). -/
theorem unix_tryLock_eacces_propagates :
    specUnixWouldBlock EACCES ∧ unixTryLock (.failure EACCES) = .err 13 := by
  decide

/-- C3 amended: the Unix native try_lock returns Ok(false) exactly on the
failure codes EWOULDBLOCK (which equals EAGAIN, code 11, on Linux) and
EINTR, propagating every other errno — EACCES included — as an error; the
Windows native try_lock returns Ok(false) exactly on GetLastError equal
to ERROR_LOCK_VIOLATION, propagating every other failure code, and errors
of the event setup or of the completion wait are likewise propagated. -/
theorem tryLock_wouldblock_classification :
    unixTryLock .success = .ok true ∧
    (∀ e : Int, unixTryLock (.failure e) =
      if e = EWOULDBLOCK ∨ e = EINTR then .ok false else .err e) ∧
    windowsTryLock (.lockOk none) = .ok true ∧
    (∀ c : Int, windowsTryLock (.lockFailed c) =
      if c = ERROR_LOCK_VIOLATION then .ok false else .err c) ∧
    (∀ c : Int, windowsTryLock (.eventErr c) = .err c) ∧
    (∀ c : Int, windowsTryLock (.lockOk (some c)) = .err c) :=
  ⟨rfl, fun _ => rfl, rfl, fun _ => rfl, fun _ => rfl, fun _ => rfl⟩

/-! ### Claim C10: the Unix write loop -/

/-- C10: evaluating the embedded unix.rs write loop at the failing input.
A one-byte slice whose single write syscall returns -1 with errno EAGAIN
(11) makes the loop panic: `written as usize` reinterprets -1 as 2^64 - 1
and the slice expression `bytes[written as usize ..]` is out of range —
the loop does not retry from the first unwritten byte as the claim says.
A successful partial write, by contrast, advances correctly: two writes of
one byte each complete a two-byte slice. -/
theorem write_eagain_panics :
    unixWrite [49] [⟨-1, 11⟩] = .panics ∧
    (⟨-1, 11⟩ : WriteCall).errno = EAGAIN ∧
    unixWrite [49, 50] [⟨1, 0⟩, ⟨1, 0⟩] = .ok ∧
    unixWrite [49] [⟨-1, 13⟩] = .err 13 := by
  refine ⟨?_, rfl, ?_, ?_⟩
  · show (if (-1 : Int) < 0 ∧ (11 : Int) ≠ EAGAIN then WriteOutcome.err 11
      else if List.length [49] < usizeCast (-1) then WriteOutcome.panics
      else unixWrite (List.drop (usizeCast (-1)) [49]) []) = .panics
    rw [if_neg (by norm_num [EAGAIN])]
    rw [if_pos (by norm_num [usizeCast])]
  · decide
  · decide

/-! ### Claim C8: the native open calls

The open flag and disposition constants are the ones the source passes to
the OS (libc values for Linux, winapi values for Windows). The functions
posixOpen and win32Open encode the documented OS semantics of those
parameters — content of the opened file on success — since the kernel
itself is outside the crate; files are modelled as an optional byte list
(none means the path does not exist). -/

def O_RDWR : Nat := 2
def O_CREAT : Nat := 64
def O_EXCL : Nat := 128
def O_TRUNC : Nat := 512
def O_CLOEXEC : Nat := 524288

/-- The flags unix.rs `open` (lines 262-277) passes to libc::open:
O_RDWR | O_CLOEXEC | O_CREAT. -/
def unixOpenFlags : Nat := O_RDWR ||| O_CLOEXEC ||| O_CREAT

/-- POSIX open(2) semantics of the creation flags: the content of the
file after a successful open, or none when open fails (no O_CREAT on an
absent file, or O_CREAT|O_EXCL on an existing one). An existing file is
truncated only under O_TRUNC. -/
def posixOpen (flags : Nat) (file : Option (List Nat)) :
    Option (List Nat) :=
  match file with
  | some c =>
      if flags &&& O_CREAT ≠ 0 ∧ flags &&& O_EXCL ≠ 0 then none
      else if flags &&& O_TRUNC ≠ 0 then some []
      else some c
  | none =>
      if flags &&& O_CREAT ≠ 0 then some [] else none

def GENERIC_READ : Nat := 2147483648
def GENERIC_WRITE : Nat := 1073741824
def CREATE_NEW : Nat := 1
def CREATE_ALWAYS : Nat := 2
def OPEN_EXISTING : Nat := 3
def OPEN_ALWAYS : Nat := 4
def TRUNCATE_EXISTING : Nat := 5

/-- The desired-access mask windows.rs `open` (lines 358-377) passes to
CreateFileW: GENERIC_WRITE only. -/
def windowsDesiredAccess : Nat := GENERIC_WRITE

/-- The creation disposition windows.rs `open` passes to CreateFileW:
CREATE_ALWAYS. -/
def windowsCreationDisposition : Nat := CREATE_ALWAYS

/-- Win32 CreateFileW semantics of the creation disposition: the content
of the file after a successful call, or none when the call fails.
CREATE_ALWAYS always creates the file anew, truncating an existing one. -/
def win32Open (disp : Nat) (file : Option (List Nat)) :
    Option (List Nat) :=
  match file with
  | some c =>
      if disp = CREATE_NEW then none
      else if disp = CREATE_ALWAYS ∨ disp = TRUNCATE_EXISTING then some []
      else some c
  | none =>
      if disp = OPEN_EXISTING ∨ disp = TRUNCATE_EXISTING then none
      else some []

/-- C8: the Unix open passes O_RDWR (read-write access) and O_CLOEXEC,
preserves the content (here "42") of an existing file and creates an
absent file empty; the Windows open, however, passes CREATE_ALWAYS and a
desired-access mask without GENERIC_READ, so a successful open of the
existing file with content "42" leaves it truncated to empty and grants
no read access — contrary to the claim and to the function's own doc
comment ("Creates it if it does not exist"). -/
theorem open_semantics :
    posixOpen unixOpenFlags (some [52, 50]) = some [52, 50] ∧
    posixOpen unixOpenFlags none = some [] ∧
    unixOpenFlags &&& O_RDWR = O_RDWR ∧
    unixOpenFlags &&& O_CLOEXEC = O_CLOEXEC ∧
    unixOpenFlags &&& O_TRUNC = 0 ∧
    win32Open windowsCreationDisposition (some [52, 50]) = some [] ∧
    windowsDesiredAccess &&& GENERIC_READ = 0 := by
  decide

/-! ### Claim C9: the buffered PID-stamping writer (src/fmt.rs)

The environment supplies the outcome of each sys::write call (indexed by
call number) and of the final sys::fsync. A run records, besides the
value write_fmt returns, the log of attempted write calls (content and
outcome) and the fsync outcome, both performed inside Drop where their
errors are discarded. Consecutive write_str calls on one adapter chunk
identically to a single call on the concatenated text, so the formatted
output is modelled as one byte list. -/

def BUF_SIZE : Nat := 16

/-- The fmt Adapter of fmt.rs (lines 36-45): fixed 16-byte buffer, write
cursor, and the accumulated partial result of intermediate flushes. -/
structure Adapter where
  buffer : List Nat
  cursor : Nat
  result : Except Int Unit
deriving DecidableEq, Repr

/-- Adapter::new (fmt.rs lines 49-51): zeroed buffer, cursor 0, Ok. -/
def Adapter.new : Adapter := ⟨List.replicate BUF_SIZE 0, 0, .ok ()⟩

/-- The slice assignment buffer[start .. start+len].copy_from_slice. -/
def writeInto (buf : List Nat) (start : Nat) (chunk : List Nat) :
    List Nat :=
  buf.take start ++ chunk ++ buf.drop (start + chunk.length)

/-- Environment for a Writer run: outcome of the k-th sys::write call and
of the sys::fsync call. -/
structure FmtEnv where
  writeRes : Nat → Except Int Unit
  fsyncRes : Except Int Unit

/-- Adapter::flush (fmt.rs lines 54-59): writes buffer[..cursor]; on
success resets buffer and cursor; on failure the adapter is unchanged
(the ? operator returns early). Returns the new adapter and the flush
result. -/
def Adapter.flush (a : Adapter) (res : Except Int Unit) :
    Adapter × Except Int Unit :=
  match res with
  | .error e => (a, .error e)
  | .ok () => (⟨List.replicate BUF_SIZE 0, 0, a.result⟩, .ok ())

/-- One run of Adapter::write_str (fmt.rs lines 68-89): the loop copies
min(BUF_SIZE - cursor, len) bytes into the buffer, and flushes (storing
the flush result into self.result) whenever bytes remain. The fuel
argument bounds the number of loop iterations; every run from a fresh
adapter performs at most one iteration per input byte, so the callers
below always pass enough fuel. Returns the final adapter, the next write
call index, and the log of write calls performed. -/
def Adapter.writeStr : Nat → Adapter → List Nat → FmtEnv → Nat →
    List (List Nat × Except Int Unit) →
    Adapter × Nat × List (List Nat × Except Int Unit)
  | 0, a, _, _, k, log => (a, k, log)
  | fuel + 1, a, bytes, env, k, log =>
      if bytes.length > 0 ∧ a.result = .ok () then
        let size := min (BUF_SIZE - a.cursor) bytes.length
        let a1 : Adapter :=
          ⟨writeInto a.buffer a.cursor (bytes.take size), a.cursor + size,
           a.result⟩
        let rest := bytes.drop size
        if rest.length > 0 then
          let content := a1.buffer.take a1.cursor
          let res := env.writeRes k
          let a2 := (a1.flush res).1
          let a3 : Adapter := { a2 with result := (a1.flush res).2 }
          match (a1.flush res).2 with
          | .error _ => (a3, k + 1, log ++ [(content, res)])
          | .ok () =>
              Adapter.writeStr fuel a3 rest env (k + 1)
                (log ++ [(content, res)])
        else (a1, k, log)
      else (a, k, log)

/-- Result of one Writer::write_fmt run: the value write_fmt returns, the
log of sys::write calls attempted (the final Drop flush included), and
the outcome of the Drop fsync. -/
structure FmtRun where
  result : Except Int Unit
  writes : List (List Nat × Except Int Unit)
  fsync : Except Int Unit
deriving DecidableEq, Repr

/-- Writer::write_fmt (fmt.rs lines 22-29): formats through a fresh
Adapter (its fmt error discarded), then Adapter::finish extracts the
result field, and then Drop runs — flushing the remaining buffer and
calling fsync, both outcomes discarded. -/
def Writer.writeFmt (data : List Nat) (env : FmtEnv) : FmtRun :=
  let r := Adapter.writeStr (data.length + 2) Adapter.new data env 0 []
  let a1 := r.1
  let finished := a1.result
  let dropContent := a1.buffer.take a1.cursor
  let dropRes := env.writeRes r.2.1
  ⟨finished, r.2.2 ++ [(dropContent, dropRes)], env.fsyncRes⟩

/-- C9 counterexample: writing the four-byte PID stamp "123\x0a" when
the one and only write syscall — the final flush, performed by Drop —
fails with error 5 and the fsync fails with error 7: write_fmt still
returns Ok, because Adapter::finish extracts the result before Drop runs
and Drop discards both errors. The claim that a failing final flush makes
write_fmt return the error is therefore false. -/
theorem writeFmt_final_flush_error_swallowed :
    Writer.writeFmt [49, 50, 51, 10] ⟨fun _ => .error 5, .error 7⟩ =
      ⟨.ok (), [([49, 50, 51, 10], .error 5)], .error 7⟩ := by
  decide

/-- One-step unfolding of the write_str loop. -/
theorem writeStr_succ (fuel : Nat) (a : Adapter) (bytes : List Nat)
    (env : FmtEnv) (k : Nat) (log : List (List Nat × Except Int Unit)) :
    Adapter.writeStr (fuel + 1) a bytes env k log =
      if bytes.length > 0 ∧ a.result = .ok () then
        let size := min (BUF_SIZE - a.cursor) bytes.length
        let a1 : Adapter :=
          ⟨writeInto a.buffer a.cursor (bytes.take size), a.cursor + size,
           a.result⟩
        let rest := bytes.drop size
        if rest.length > 0 then
          let content := a1.buffer.take a1.cursor
          let res := env.writeRes k
          let a2 := (a1.flush res).1
          let a3 : Adapter := { a2 with result := (a1.flush res).2 }
          match (a1.flush res).2 with
          | .error _ => (a3, k + 1, log ++ [(content, res)])
          | .ok () =>
              Adapter.writeStr fuel a3 rest env (k + 1)
                (log ++ [(content, res)])
        else (a1, k, log)
      else (a, k, log) := rfl

/-- C9 amended: the final flush and the fsync are performed on drop, so
the full formatted text is attempted to the file by the time write_fmt
completes, but their errors are discarded: when the formatted text fits
the 16-byte buffer — as every PID stamp does — write_fmt returns Ok
regardless of every syscall outcome, the whole text being handed to the
single (final) write call; only an error of an intermediate flush, which
requires text longer than the buffer, is surfaced by write_fmt. -/
theorem writeFmt_error_surfacing (data : List Nat) (env : FmtEnv) :
    (data.length ≤ BUF_SIZE →
      (Writer.writeFmt data env).result = .ok () ∧
      (Writer.writeFmt data env).writes = [(data, env.writeRes 0)] ∧
      (Writer.writeFmt data env).fsync = env.fsyncRes) ∧
    (BUF_SIZE < data.length → ∀ e, env.writeRes 0 = .error e →
      (Writer.writeFmt data env).result = .error e) := by
  constructor
  · intro hlen
    cases data with
    | nil =>
      refine ⟨rfl, ?_, rfl⟩
      show [((List.replicate BUF_SIZE 0).take 0, env.writeRes 0)] = _
      rfl
    | cons b bs =>
      have hpos : (b :: bs).length > 0 := by simp
      unfold Writer.writeFmt
      rw [show (b :: bs).length + 2 = ((b :: bs).length + 1) + 1 from rfl,
        writeStr_succ]
      have hcond : (b :: bs).length > 0 ∧
          (Adapter.new).result = Except.ok () := ⟨hpos, rfl⟩
      rw [if_pos hcond]
      simp only [Adapter.new]
      rw [show BUF_SIZE - 0 = BUF_SIZE from rfl,
        Nat.min_eq_right hlen, List.drop_length]
      rw [if_neg (by simp)]
      refine ⟨rfl, ?_, trivial⟩
      simp [writeInto, List.take_left']
  · intro hlen e herr
    have hpos : data.length > 0 := by omega
    unfold Writer.writeFmt
    rw [show data.length + 2 = (data.length + 1) + 1 from rfl,
      writeStr_succ]
    rw [if_pos (show data.length > 0 ∧
      (Adapter.new).result = .ok () from ⟨hpos, rfl⟩)]
    simp only [Adapter.new]
    rw [show BUF_SIZE - 0 = BUF_SIZE from rfl,
      Nat.min_eq_left (Nat.le_of_lt hlen)]
    rw [if_pos (show (data.drop BUF_SIZE).length > 0 by
      simp only [List.length_drop]
      omega)]
    rw [herr]
    rfl

/-- Witness for C9 amended: the four-byte stamp "123\x0a" with an
environment whose every write fails with error 5 still yields Ok (the
16-byte case), and a 17-byte text whose first flush fails with error 5
surfaces error 5. -/
theorem writeFmt_error_surfacing_witness :
    (Writer.writeFmt [49, 50, 51, 10]
        ⟨fun _ => .error 5, .ok ()⟩).result = .ok () ∧
    (Writer.writeFmt [1, 2, 3, 4, 5, 6, 7, 8, 9, 10, 11, 12, 13, 14, 15,
        16, 17] ⟨fun _ => .error 5, .ok ()⟩).result = .error 5 := by
  constructor
  · exact ((writeFmt_error_surfacing [49, 50, 51, 10]
      ⟨fun _ => .error 5, .ok ()⟩).1 (by decide)).1
  · exact (writeFmt_error_surfacing _ ⟨fun _ => .error 5, .ok ()⟩).2
      (by decide) 5 rfl

end Fslock
